import Mathlib

/-!
Verification of the timelog period/quantization/statistics engine
(`timelog.py`): the `Period` value type, the grid quantizer, the period
merger, and the generic `Stat` aggregation mechanism.

Modelling conventions:
* A Python `datetime` (offset-aware) is a `DateTime`: `wall` is the local
  wall-clock reading in microseconds since 0001-01-01T00:00:00 (so the
  calendar/time fields are decompositions of `wall`), and `offset` is the
  fixed UTC offset in microseconds.  Python compares aware datetimes and
  subtracts them by their UTC instant `wall - offset`; adding a
  `timedelta` moves the wall clock and keeps the offset.
* A Python `timedelta` is an `Int` counting microseconds (`timedelta` is
  exact at microsecond granularity).  Python's `%` and `//` on integers
  and timedeltas are floored (`Int.fmod` / `Int.fdiv`).
* Exceptions are modelled by `Except PyErr`.
-/

/-- One day in microseconds (`Period.DAY`). -/
def dayUS : Int := 86400000000

/-- One hour in microseconds (`Period.HOUR`). -/
def hourUS : Int := 3600000000

/-- An offset-aware `datetime`: local wall-clock microseconds since
0001-01-01T00:00:00 plus a fixed UTC offset in microseconds. -/
structure DateTime where
  wall : Int
  offset : Int
deriving DecidableEq, Repr

/-- The UTC instant of an aware datetime; Python's `<`, `<=`, `==` and `-`
on aware datetimes act on this value. -/
def utc (d : DateTime) : Int := d.wall - d.offset

/-- `datetime + timedelta`: moves the wall clock, keeps the offset. -/
def dtAdd (d : DateTime) (t : Int) : DateTime := ⟨d.wall + t, d.offset⟩

/-- The exceptions raised by the modelled code paths. -/
inductive PyErr where
  | valueError (msg : String)
  | assertionError
  | zeroDivisionError
deriving DecidableEq, Repr

/-- `Period.__slots__ = ('start', 'duration')`: the stored state of a
`Period`.  `duration` is a timedelta in microseconds. -/
structure Period where
  start : DateTime
  duration : Int
deriving DecidableEq, Repr

/-- `Period.end`: the derived property `start + duration`. -/
def Period.endTime (p : Period) : DateTime := dtAdd p.start p.duration

/-- `Period.__new__(cls, start, duration=None, *, end=None)`, translated
step for step: a provided negative duration is rejected; a missing `end`
is computed as `start + duration`; `end < start` is rejected; a missing
`duration` is computed as `end - start` (a UTC difference); providing
neither is rejected; finally `start + duration != end` is rejected
(datetime comparison and equality act on UTC instants). -/
def mkPeriod (start : DateTime) (duration : Option Int) (endv : Option DateTime) :
    Except PyErr Period :=
  match duration with
  | some d =>
    if d < 0 then .error (.valueError "duration must not be negative") else
    let e := endv.getD (dtAdd start d)
    if utc e < utc start then .error (.valueError "end must be >= start") else
    if utc (dtAdd start d) ≠ utc e then .error (.valueError "duration must match end - start") else
    .ok ⟨start, d⟩
  | none =>
    match endv with
    | some e =>
      if utc e < utc start then .error (.valueError "end must be >= start") else
      let d := utc e - utc start
      if utc (dtAdd start d) ≠ utc e then .error (.valueError "duration must match end - start")
      else .ok ⟨start, d⟩
    | none => .error (.valueError "Must provide end or duration")

/-- `Period.replace(*, start=None, duration=None, end=None)`:
`start = start or self.start` (datetimes are always truthy), the duration
defaults to the original's only when both `duration` and `end` are unset,
and the result is re-validated by `Period.__new__`. -/
def Period.replaceP (p : Period) (start : Option DateTime) (duration : Option Int)
    (endv : Option DateTime) : Except PyErr Period :=
  let start := start.getD p.start
  let duration := if duration.isNone ∧ endv.isNone then some p.duration else duration
  mkPeriod start duration endv

/-- `quantize(dt, *, resolution)`:
`assert not Period.DAY % resolution` (a zero resolution raises
`ZeroDivisionError` from `%` before the assert is judged), then
`from_midnight` is the wall-clock time of day (`dt.wall` reduced modulo a
day), `start = dt - (from_midnight % resolution)` with Python's floored
timedelta `%`, and the result is `Period(start, resolution)`. -/
def quantize (dt : DateTime) (resolution : Int) : Except PyErr Period :=
  if resolution = 0 then .error .zeroDivisionError
  else if dayUS.fmod resolution ≠ 0 then .error .assertionError
  else
    let fromMidnight := dt.wall % dayUS
    let start : DateTime := ⟨dt.wall - fromMidnight.fmod resolution, dt.offset⟩
    mkPeriod start (some resolution) none

/-- Python's binary `max(a, b)` on datetimes: the second argument is taken
only when it is strictly greater (UTC comparison), so ties keep the first. -/
def pymaxDT (a b : DateTime) : DateTime := if utc a < utc b then b else a

/-- `first.replace(end=e)` as used inside `Period.merge`: `Period(first.start,
None, end=e)`, whose duration is recomputed as the UTC difference
`e - first.start`.  On the merge path `e = max(first.end, second.end)` is
never before `first.start` (durations of constructible periods are
non-negative), so the re-validation in `Period.__new__` cannot fail and is
elided here. -/
def replaceEnd (p : Period) (e : DateTime) : Period := ⟨p.start, utc e - utc p.start⟩

/-- The loop of `Period.merge`: `current` is the accumulator, the list is
what remains of the iterator.  Each step orders `{current, period}` by
`start` into `(first, second)`, merges when `first.end + max_gap >=
second.start` by extending `first` to `max(first.end, second.end)`, and
otherwise yields `current` and restarts the accumulator at `period`; the
final accumulator is always yielded. -/
def mergeAux (g : Int) (current : Period) : List Period → List Period
  | [] => [current]
  | p :: rest =>
    let fs := if utc current.start ≤ utc p.start then (current, p) else (p, current)
    if utc fs.2.start ≤ utc fs.1.endTime + g then
      mergeAux g (replaceEnd fs.1 (pymaxDT fs.1.endTime fs.2.endTime)) rest
    else current :: mergeAux g p rest

/-- `Period.merge(periods, *, max_gap)`: empty input yields nothing,
otherwise the first period seeds the accumulator. -/
def Period.merge (periods : List Period) (g : Int) : List Period :=
  match periods with
  | [] => []
  | c :: rest => mergeAux g c rest

/-- `count_hours(periods)`: the sum of `duration / Period.HOUR` over the
periods.  Python's timedelta division produces a float; it is modelled as
the exact rational value. -/
def count_hours (ps : List Period) : ℚ :=
  ps.foldl (fun acc p => acc + (p.duration : ℚ) / (hourUS : ℚ)) 0

/-- `itertools.groupby(periods, key=key)`: group *adjacent* elements with
equal keys; equal but non-consecutive keys form separate groups. -/
def groupAdjacent {K : Type} [DecidableEq K] (key : Period → K) : List Period → List (K × List Period)
  | [] => []
  | p :: rest =>
    match groupAdjacent key rest with
    | [] => [(key p, [p])]
    | (k, grp) :: t => if key p = k then (k, p :: grp) :: t else (key p, [p]) :: (k, grp) :: t

/-- Insertion into a Python `dict` modelled as an association list: an
existing key keeps its position and gets the new value, a new key is
appended. -/
def dictInsert {A : Type} (d : List (String × A)) (k : String) (v : A) : List (String × A) :=
  match d with
  | [] => [(k, v)]
  | kv :: t => if kv.1 = k then (kv.1, v) :: t else kv :: dictInsert t k v

/-- A Python dict comprehension over a sequence of key/value pairs,
in iteration order. -/
def pyDictOf {A : Type} (l : List (String × A)) : List (String × A) :=
  l.foldl (fun d kv => dictInsert d kv.1 kv.2) []

/-- `Stat.make(cls, periods)`: group adjacent periods by `cls.key`, apply
`take(limit, ...)` only when `limit` is truthy (`if limit:`), then build
the dict `{fmt_key(key): aggregate(group)}`. -/
def statMake {K A : Type} [DecidableEq K] (key : Period → K) (fmt_key : K → String)
    (limit : Option Nat) (aggregate : List Period → A) (periods : List Period) :
    List (String × A) :=
  let grouped := groupAdjacent key periods
  let grouped :=
    match limit with
    | some n => if n ≠ 0 then grouped.take n else grouped
    | none => grouped
  pyDictOf (grouped.map fun kg => (fmt_key kg.1, aggregate kg.2))

/-- `datetime.toordinal()`: the proleptic Gregorian ordinal of the
datetime's calendar day, with 0001-01-01 having ordinal 1.  With `wall`
counting microseconds since 0001-01-01T00:00:00 this is
`wall // day + 1`. -/
def toordinal (d : DateTime) : Int := d.wall.fdiv dayUS + 1

/-- CPython `_days_before_year(year)`: days before January 1st of `year`
in the proleptic Gregorian calendar. -/
def daysBeforeYear (year : Int) : Int :=
  (year - 1) * 365 + (year - 1).fdiv 4 - (year - 1).fdiv 100 + (year - 1).fdiv 400

/-- CPython `_isoweek1monday(year)`: the ordinal of the Monday starting
the ISO week 1 of `year` (the week containing the first Thursday). -/
def isoweek1monday (year : Int) : Int :=
  let firstday := daysBeforeYear year + 1
  let firstweekday := (firstday + 6).fmod 7
  let week1monday := firstday - firstweekday
  if 3 < firstweekday then week1monday + 7 else week1monday

/-- The year component of CPython `_ord2ymd(n)`: peel off 400-, 100-,
4- and 1-year cycles; the leap-day edge (`n1 == 4 or n100 == 4`) belongs
to December 31st of the preceding year. -/
def ordToYear (n0 : Int) : Int :=
  let n := n0 - 1
  let n400 := n.fdiv 146097
  let n := n.fmod 146097
  let n100 := n.fdiv 36524
  let n := n.fmod 36524
  let n4 := n.fdiv 1461
  let n := n.fmod 1461
  let n1 := n.fdiv 365
  let year := n400 * 400 + 1 + n100 * 100 + n4 * 4 + n1
  if n1 = 4 ∨ n100 = 4 then year - 1 else year

/-- `datetime.isocalendar()[:2]`: the ISO calendar `(year, week)` of the
datetime's calendar day, per CPython's `date.isocalendar`. -/
def isocalendarYW (d : DateTime) : Int × Int :=
  let today := toordinal d
  let year := ordToYear today
  let week1monday := isoweek1monday year
  let week := (today - week1monday).fdiv 7
  if week < 0 then
    let year := year - 1
    let week1monday := isoweek1monday year
    ((year : Int), (today - week1monday).fdiv 7 + 1)
  else if 52 ≤ week then
    if isoweek1monday (year + 1) ≤ today then (year + 1, 1) else (year, week + 1)
  else (year, week + 1)

/-- The `Weeks.fmt_key` format (a str.format pattern joining year and week
with "-W", the week padded with a leading zero to two digits): the year in
decimal and the week zero-padded to width 2. -/
def fmtWeekKey (k : Int × Int) : String :=
  toString k.1 ++ "-W" ++ (if 0 ≤ k.2 ∧ k.2 < 10 then "0" ++ toString k.2 else toString k.2)

/-- The `Weeks` statistic: `key = period.start.isocalendar()[:2]`,
`fmt_key` as above, `limit = 8`, default aggregation `count_hours`. -/
def weeksMake (periods : List Period) : List (String × ℚ) :=
  statMake (fun p => isocalendarYW p.start) fmtWeekKey (some 8) count_hours periods

/-- Modelled from the spec's words for the Weeks statistic: group the
period sequence by the ISO calendar (year, week) of each period's start,
keep only the first 8 groups in encounter order (for ascending input, the
chronologically first 8 weeks present), and report each kept group as its
formatted "YYYY-Wnn" key paired with its aggregated hours. -/
def specWeeksMake (ps : List Period) : List (String × ℚ) :=
  ((groupAdjacent (fun p => isocalendarYW p.start) ps).take 8).map
    (fun grp => (fmtWeekKey grp.1, count_hours grp.2))

/-- `LongestSession.max_gap = timedelta(minutes=30, microseconds=-1)`,
in microseconds. -/
def longestGap : Int := 30 * 60 * 1000000 + (-1)

/-- Python `max(iterable, key=Period.by_duration, default=None)`: scan the
list keeping the element whose key is strictly greater than the current
best, so the earliest element among ties wins; the default is returned on
an empty iterable. -/
def pymaxByDuration (l : List Period) : Option Period :=
  match l with
  | [] => none
  | x :: xs => some (xs.foldl (fun m p => if m.duration < p.duration then p else m) x)

/-- `LongestSession.make(cls, periods)`: merge with `max_gap` and take the
merged period of maximum duration, or `None` when there is none. -/
def longestSessionMake (periods : List Period) : Option Period :=
  pymaxByDuration (Period.merge periods longestGap)

/-- Whether a result is a `ValueError` (the error Period construction
raises on an invariant violation). -/
def isConstructionError : Except PyErr Period → Bool
  | .error (.valueError _) => true
  | _ => false

instance : DecidableEq (Except PyErr Period) := fun x y =>
  match x, y with
  | .ok a, .ok b => if h : a = b then .isTrue (by rw [h]) else .isFalse (by simp [h])
  | .error a, .error b => if h : a = b then .isTrue (by rw [h]) else .isFalse (by simp [h])
  | .ok _, .error _ => .isFalse (by simp)
  | .error _, .ok _ => .isFalse (by simp)

lemma mkPeriod_some_none (s : DateTime) (d : Int) (hd : 0 ≤ d) :
    mkPeriod s (some d) none = .ok ⟨s, d⟩ := by
  simp only [mkPeriod, Option.getD]
  split_ifs with h1 h2 h3
  · omega
  · exfalso; revert h2; simp [utc, dtAdd]; omega
  · exact absurd rfl h3
  · rfl

lemma mkPeriod_none_some (s : DateTime) (e : DateTime) (h : utc s ≤ utc e) :
    mkPeriod s none (some e) = .ok ⟨s, utc e - utc s⟩ := by
  simp only [mkPeriod, Option.getD]
  split_ifs with h1 h2
  · omega
  · exfalso; apply h2; simp only [utc, dtAdd]; omega
  · rfl

lemma quantize_ok (dt : DateTime) (R : Int) (h0 : 0 < R) (h2 : dayUS.fmod R = 0) :
    quantize dt R = .ok ⟨⟨dt.wall - (dt.wall % dayUS).fmod R, dt.offset⟩, R⟩ := by
  unfold quantize
  rw [if_neg (by omega), if_neg (not_not_intro h2)]
  exact mkPeriod_some_none _ _ (le_of_lt h0)

/-- C2: for every instant `t` and every valid resolution `R` (positive,
less than a day, dividing a day evenly), `quantize(t, R)` returns a period
with `start <= t < end` (UTC comparisons, as Python compares aware
datetimes), `duration = R`, the same offset as `t`, and `start` on the
grid anchored at local midnight of `t`'s own calendar day:
`start = midnight(t) + ((t - midnight(t)) // R) * R`, where
`midnight(t) = t.wall - t.wall % day` so that
`t - midnight(t) = t.wall % day`. -/
theorem quantize_grid_property (dt : DateTime) (R : Int)
    (h0 : 0 < R) (h1 : R < dayUS) (h2 : dayUS.fmod R = 0) :
    ∃ p : Period, quantize dt R = .ok p ∧
      utc p.start ≤ utc dt ∧ utc dt < utc p.endTime ∧ p.duration = R ∧
      p.start.offset = dt.offset ∧
      p.start.wall = (dt.wall - dt.wall % dayUS) + (dt.wall % dayUS).fdiv R * R := by
  have hfm : (0 : Int) ≤ dt.wall % dayUS := Int.emod_nonneg _ (by norm_num [dayUS])
  have hr0 : (0 : Int) ≤ (dt.wall % dayUS).fmod R := Int.fmod_nonneg' _ h0
  have hrR : (dt.wall % dayUS).fmod R < R := Int.fmod_lt_of_pos _ h0
  have hdiv : R * (dt.wall % dayUS).fdiv R + (dt.wall % dayUS).fmod R
      = dt.wall % dayUS := Int.fdiv_add_fmod _ _
  refine ⟨⟨⟨dt.wall - (dt.wall % dayUS).fmod R, dt.offset⟩, R⟩,
    quantize_ok dt R h0 h2, ?_, ?_, rfl, rfl, ?_⟩
  · simp only [utc]; omega
  · simp only [utc, Period.endTime, dtAdd]; omega
  · dsimp only
    have hc : R * (dt.wall % dayUS).fdiv R = (dt.wall % dayUS).fdiv R * R :=
      mul_comm _ _
    omega

/-- Witness for `quantize_grid_property` at 2020-01-01T09:00:00.000001+00:00
with the 15-minute resolution. -/
theorem quantize_grid_property_witness :
    ∃ p : Period, quantize ⟨63713466000000001, 0⟩ 900000000 = .ok p ∧
      utc p.start ≤ utc ⟨63713466000000001, 0⟩ ∧
      utc ⟨63713466000000001, 0⟩ < utc p.endTime ∧ p.duration = 900000000 ∧
      p.start.offset = 0 ∧
      p.start.wall = (63713466000000001 - (63713466000000001 : Int) % dayUS) +
        ((63713466000000001 : Int) % dayUS).fdiv 900000000 * 900000000 :=
  quantize_grid_property ⟨63713466000000001, 0⟩ 900000000
    (by norm_num) (by norm_num [dayUS]) (by decide)

/-- C8: quantization is idempotent on grid starts: for every instant `t`
and valid resolution `R`, quantizing the start of `quantize(t, R)` with
the same resolution yields a period with the same `start`. -/
theorem quantize_idempotent (dt : DateTime) (R : Int)
    (h0 : 0 < R) (h1 : R < dayUS) (h2 : dayUS.fmod R = 0) :
    ∃ p q : Period, quantize dt R = .ok p ∧ quantize p.start R = .ok q ∧
      q.start = p.start := by
  have hday : (0 : Int) < dayUS := by norm_num [dayUS]
  set fm : Int := dt.wall % dayUS with hfmdef
  have hfm0 : (0 : Int) ≤ fm := Int.emod_nonneg _ (by omega)
  have hfmlt : fm < dayUS := Int.emod_lt_of_pos _ hday
  set r : Int := fm.fmod R with hrdef
  have hre : r = fm % R := Int.fmod_eq_emod _ (le_of_lt h0)
  have hr0 : (0 : Int) ≤ r := Int.fmod_nonneg' _ h0
  have hdiv : R * (fm / R) + fm % R = fm := Int.ediv_add_emod _ _
  have hrfm : fm - r = R * (fm / R) := by omega
  have hprod : (0 : Int) ≤ R * (fm / R) :=
    mul_nonneg (le_of_lt h0) (Int.ediv_nonneg hfm0 (le_of_lt h0))
  refine ⟨⟨⟨dt.wall - r, dt.offset⟩, R⟩, ⟨⟨dt.wall - r, dt.offset⟩, R⟩,
    quantize_ok dt R h0 h2, ?_, rfl⟩
  have hsplit : dt.wall - r = dayUS * (dt.wall / dayUS) + (fm - r) := by
    have := Int.ediv_add_emod dt.wall dayUS
    omega
  have hmod : (dt.wall - r) % dayUS = fm - r := by
    rw [hsplit, add_comm, Int.add_mul_emod_self_left,
      Int.emod_eq_of_lt (by omega) (by omega)]
  have hzero : ((dt.wall - r) % dayUS).fmod R = 0 := by
    rw [hmod, Int.fmod_eq_emod _ (le_of_lt h0), hrfm, Int.mul_emod_right]
  have := quantize_ok ⟨dt.wall - r, dt.offset⟩ R h0 h2
  rw [this]
  simp only [hzero]
  norm_num

/-- Witness for `quantize_idempotent` at 2020-01-01T09:17:23+00:00 with
the 15-minute resolution. -/
theorem quantize_idempotent_witness :
    ∃ p q : Period, quantize ⟨63713467043000000, 0⟩ 900000000 = .ok p ∧
      quantize p.start 900000000 = .ok q ∧ q.start = p.start :=
  quantize_idempotent ⟨63713467043000000, 0⟩ 900000000
    (by norm_num) (by norm_num [dayUS]) (by decide)

/-- C6, counterexample: a resolution of one full day violates the claimed
precondition `resolution < 1 day`, yet `quantize` does not fail — the code
only asserts divisibility, a day divides a day, and a valid Period is
returned. -/
theorem quantize_full_day_succeeds :
    ¬ ((86400000000 : Int) < dayUS) ∧
      quantize ⟨1000, 0⟩ 86400000000 = .ok ⟨⟨0, 0⟩, 86400000000⟩ := by
  exact ⟨by norm_num [dayUS], by rfl⟩

/-- C6, amended: for every nonzero resolution that does not divide one day
evenly (Python's floored timedelta modulo), `quantize` fails with the
assertion failure rather than returning a Period.  (A zero resolution
raises `ZeroDivisionError`; a negative divisor of a day passes the assert
and fails Period construction with a `ValueError`; a full day passes and
succeeds.) -/
theorem quantize_assert_on_nondividing (dt : DateTime) (R : Int)
    (hR : R ≠ 0) (hnd : dayUS.fmod R ≠ 0) :
    quantize dt R = .error .assertionError := by
  unfold quantize
  rw [if_neg hR, if_pos hnd]

/-- Witness for `quantize_assert_on_nondividing`: a 7-second resolution
does not divide one day. -/
theorem quantize_assert_on_nondividing_witness :
    quantize ⟨1000, 0⟩ 7000000 = .error .assertionError :=
  quantize_assert_on_nondividing ⟨1000, 0⟩ 7000000 (by norm_num) (by decide)

/-- C4: Period construction fails with a construction error (`ValueError`)
exactly under the invariant violations: a provided negative duration; a
provided end before start (UTC comparison); both provided but
`start + duration != end`; or neither provided. -/
theorem mkPeriod_error_iff (s : DateTime) (d : Option Int) (e : Option DateTime) :
    isConstructionError (mkPeriod s d e) = true ↔
      (∃ d0, d = some d0 ∧ d0 < 0) ∨
      (∃ e0, e = some e0 ∧ utc e0 < utc s) ∨
      (∃ d0 e0, d = some d0 ∧ e = some e0 ∧ utc s + d0 ≠ utc e0) ∨
      (d = none ∧ e = none) := by
  rcases d with _ | d0 <;> rcases e with _ | e0
  · simp [mkPeriod, isConstructionError]
  · simp only [mkPeriod, Option.getD]
    split_ifs with h1 h2
    · simp only [isConstructionError, true_iff]
      exact Or.inr (Or.inl ⟨e0, rfl, h1⟩)
    · exfalso; apply h2; simp only [utc, dtAdd]; omega
    · refine iff_of_false (by simp [isConstructionError]) ?_
      rintro (⟨d1, hd, _⟩ | ⟨e1, he, hlt⟩ | ⟨d1, e1, hd, _, _⟩ | ⟨_, he⟩)
      · exact hd.elim
      · obtain rfl : e0 = e1 := by simpa using he
        omega
      · exact hd.elim
      · exact he.elim
  · simp only [mkPeriod, Option.getD]
    split_ifs with h1 h2 h3
    · simp only [isConstructionError, true_iff]
      exact Or.inl ⟨d0, rfl, h1⟩
    · exfalso; revert h2; simp only [utc, dtAdd]; omega
    · exact absurd rfl h3
    · refine iff_of_false (by simp [isConstructionError]) ?_
      rintro (⟨d1, hd, hlt⟩ | ⟨e1, he, _⟩ | ⟨d1, e1, _, he, _⟩ | ⟨hd, _⟩)
      · obtain rfl : d0 = d1 := by simpa using hd
        omega
      · exact he.elim
      · exact he.elim
      · exact hd.elim
  · simp only [mkPeriod, Option.getD]
    split_ifs with h1 h2 h3
    · simp only [isConstructionError, true_iff]
      exact Or.inl ⟨d0, rfl, h1⟩
    · simp only [isConstructionError, true_iff]
      exact Or.inr (Or.inl ⟨e0, rfl, h2⟩)
    · simp only [isConstructionError, true_iff]
      refine Or.inr (Or.inr (Or.inl ⟨d0, e0, rfl, rfl, ?_⟩))
      revert h3; simp only [utc, dtAdd]; omega
    · refine iff_of_false (by simp [isConstructionError]) ?_
      rintro (⟨d1, hd, hlt⟩ | ⟨e1, he, hlt⟩ | ⟨d1, e1, hd, he, hne⟩ | ⟨hd, _⟩)
      · obtain rfl : d0 = d1 := by simpa using hd
        omega
      · obtain rfl : e0 = e1 := by simpa using he
        omega
      · obtain rfl : d0 = d1 := by simpa using hd
        obtain rfl : e0 = e1 := by simpa using he
        have h3' := not_not.mp h3
        apply hne
        simp only [utc, dtAdd] at h3' ⊢
        omega
      · exact hd.elim



/-- C5, counterexample: `p.replace(end=e)` does not keep the original's
duration — for `p` with `start` at wall 0 and duration 10, replacing the
end with wall 4 yields duration 4, not 10 (the duration is recomputed as
`end - start` because only the case where both `duration` and `end` are
unset defaults to the original duration). -/
theorem replace_end_resets_duration :
    Period.replaceP ⟨⟨0, 0⟩, 10⟩ none none (some ⟨4, 0⟩) = .ok ⟨⟨0, 0⟩, 4⟩ ∧
      (4 : Int) ≠ 10 := by
  exact ⟨by rfl, by norm_num⟩

/-- C5, amended: `replace` defaults an unset `start` to the original's
start; the duration defaults to the original's only when both `duration`
and `end` are unset; `p.replace()` equals `p`; `p.replace(start=s)` keeps
the original duration; `p.replace(duration=d)` keeps the original start;
and `p.replace(end=e)` recomputes the duration as `e - p.start` instead of
keeping the original's. -/
theorem replace_defaults (s : DateTime) (d : Int) (hd : 0 ≤ d) :
    Period.replaceP ⟨s, d⟩ none none none = .ok ⟨s, d⟩ ∧
      (∀ s' : DateTime, Period.replaceP ⟨s, d⟩ (some s') none none = .ok ⟨s', d⟩) ∧
      (∀ d' : Int, 0 ≤ d' → Period.replaceP ⟨s, d⟩ none (some d') none = .ok ⟨s, d'⟩) ∧
      (∀ e : DateTime, utc s ≤ utc e →
        Period.replaceP ⟨s, d⟩ none none (some e) = .ok ⟨s, utc e - utc s⟩) := by
  refine ⟨?_, fun s' => ?_, fun d' hd' => ?_, fun e he => ?_⟩
  · simpa [Period.replaceP] using mkPeriod_some_none s d hd
  · simpa [Period.replaceP] using mkPeriod_some_none s' d hd
  · simpa [Period.replaceP] using mkPeriod_some_none s d' hd'
  · simpa [Period.replaceP] using mkPeriod_none_some s e he

/-- Witness for `replace_defaults` at a concrete period. -/
theorem replace_defaults_witness :
    Period.replaceP ⟨⟨3, 1⟩, 10⟩ none none none = .ok ⟨⟨3, 1⟩, 10⟩ ∧
      Period.replaceP ⟨⟨3, 1⟩, 10⟩ (some ⟨7, 1⟩) none none = .ok ⟨⟨7, 1⟩, 10⟩ ∧
      Period.replaceP ⟨⟨3, 1⟩, 10⟩ none (some 5) none = .ok ⟨⟨3, 1⟩, 5⟩ ∧
      Period.replaceP ⟨⟨3, 1⟩, 10⟩ none none (some ⟨9, 1⟩) =
        .ok ⟨⟨3, 1⟩, utc ⟨9, 1⟩ - utc ⟨3, 1⟩⟩ := by
  obtain ⟨h1, h2, h3, h4⟩ := replace_defaults ⟨3, 1⟩ 10 (by norm_num)
  exact ⟨h1, h2 ⟨7, 1⟩, h3 5 (by norm_num), h4 ⟨9, 1⟩ (by norm_num [utc])⟩

lemma mergeAux_spec (g : Int) : ∀ (rest : List Period) (current : Period),
    (∀ p ∈ rest, utc current.start ≤ utc p.start) →
    rest.Pairwise (fun a b => utc a.start ≤ utc b.start) →
    ∃ h t, mergeAux g current rest = h :: t ∧ h.start = current.start ∧
      (h :: t).Chain' (fun a b => utc a.start ≤ utc b.start) ∧
      (h :: t).Chain' (fun a b => utc a.endTime + g < utc b.start)
  | [], current => by
    intro _ _
    exact ⟨current, [], rfl, rfl, List.chain'_singleton _, List.chain'_singleton _⟩
  | p :: rest, current => by
    intro hcur hpair
    have hcp : utc current.start ≤ utc p.start := hcur p (List.mem_cons_self _ _)
    have hrest : ∀ q ∈ rest, utc current.start ≤ utc q.start :=
      fun q hq => hcur q (List.mem_cons_of_mem _ hq)
    have hprest : ∀ q ∈ rest, utc p.start ≤ utc q.start :=
      fun q hq => (List.pairwise_cons.mp hpair).1 q hq
    have hpair' : rest.Pairwise (fun a b => utc a.start ≤ utc b.start) :=
      (List.pairwise_cons.mp hpair).2
    simp only [mergeAux, if_pos hcp]
    by_cases hmerge : utc p.start ≤ utc current.endTime + g
    · rw [if_pos hmerge]
      have hstart' : (replaceEnd current (pymaxDT current.endTime p.endTime)).start
          = current.start := rfl
      obtain ⟨h, t, heq, hst, hasc, hmax⟩ :=
        mergeAux_spec g rest (replaceEnd current (pymaxDT current.endTime p.endTime))
          (fun q hq => by rw [hstart']; exact hrest q hq) hpair'
      exact ⟨h, t, heq, by rw [hst, hstart'], hasc, hmax⟩
    · rw [if_neg hmerge]
      obtain ⟨h, t, heq, hst, hasc, hmax⟩ := mergeAux_spec g rest p hprest hpair'
      refine ⟨current, h :: t, by rw [heq], rfl, ?_, ?_⟩
      · exact List.chain'_cons.mpr ⟨by rw [hst]; exact hcp, hasc⟩
      · exact List.chain'_cons.mpr ⟨by rw [hst]; omega, hmax⟩

/-- C1, amended: merging a sequence of periods sorted ascending by `start`
yields, for every gap `G`, periods ascending by `start` and maximal (no
two consecutive output periods `a, b` satisfy `a.end + G >= b.start`), and
empty input yields empty output; additionally, when `G >= 0` no two
consecutive output periods overlap.  (For a negative `G` consecutive
outputs can overlap — see `merge_negative_gap_overlap`.) -/
theorem merge_sorted_props (g : Int) (ps : List Period)
    (hsorted : ps.Pairwise (fun a b => utc a.start ≤ utc b.start)) :
    Period.merge [] g = [] ∧
      (Period.merge ps g).Chain' (fun a b => utc a.start ≤ utc b.start) ∧
      (Period.merge ps g).Chain' (fun a b => utc a.endTime + g < utc b.start) ∧
      (0 ≤ g → (Period.merge ps g).Chain' (fun a b => utc a.endTime ≤ utc b.start)) := by
  refine ⟨rfl, ?_⟩
  match ps with
  | [] => exact ⟨List.chain'_nil, List.chain'_nil, fun _ => List.chain'_nil⟩
  | c :: rest =>
    obtain ⟨h, t, heq, _, hasc, hmax⟩ := mergeAux_spec g rest c
      (fun q hq => (List.pairwise_cons.mp hsorted).1 q hq)
      (List.pairwise_cons.mp hsorted).2
    have heq' : Period.merge (c :: rest) g = h :: t := heq
    rw [heq']
    exact ⟨hasc, hmax, fun hg => hmax.imp fun {a b} hab => by omega⟩

/-- C1, counterexample: with a negative gap the merge of a start-sorted
pair of valid periods can emit two consecutive periods that overlap: with
`G = -100`, `[0, 50)` and `[10, 20)` are both emitted unmerged, yet the
second starts before the first ends. -/
theorem merge_negative_gap_overlap :
    ([⟨⟨0, 0⟩, 50⟩, ⟨⟨10, 0⟩, 10⟩] : List Period).Pairwise
        (fun a b => utc a.start ≤ utc b.start) ∧
      (0 : Int) ≤ (50 : Int) ∧ (0 : Int) ≤ (10 : Int) ∧
      Period.merge [⟨⟨0, 0⟩, 50⟩, ⟨⟨10, 0⟩, 10⟩] (-100) =
        [⟨⟨0, 0⟩, 50⟩, ⟨⟨10, 0⟩, 10⟩] ∧
      utc (⟨⟨10, 0⟩, 10⟩ : Period).start < utc (⟨⟨0, 0⟩, 50⟩ : Period).endTime := by
  decide

/-- Witness for `merge_sorted_props` on two sorted 15-minute periods one
hour apart with gap 0. -/
theorem merge_sorted_props_witness :
    Period.merge [] 0 = ([] : List Period) ∧
      (Period.merge [⟨⟨0, 0⟩, 900000000⟩, ⟨⟨3600000000, 0⟩, 900000000⟩] 0).Chain'
        (fun a b => utc a.start ≤ utc b.start) ∧
      (Period.merge [⟨⟨0, 0⟩, 900000000⟩, ⟨⟨3600000000, 0⟩, 900000000⟩] 0).Chain'
        (fun a b => utc a.endTime + 0 < utc b.start) ∧
      ((0 : Int) ≤ 0 →
        (Period.merge [⟨⟨0, 0⟩, 900000000⟩, ⟨⟨3600000000, 0⟩, 900000000⟩] 0).Chain'
          (fun a b => utc a.endTime ≤ utc b.start)) :=
  merge_sorted_props 0 [⟨⟨0, 0⟩, 900000000⟩, ⟨⟨3600000000, 0⟩, 900000000⟩] (by decide)

lemma merge_pair_merged (a b : Period) (g : Int) (hab : utc a.start ≤ utc b.start)
    (hm : utc b.start ≤ utc a.endTime + g) (hend : utc a.endTime < utc b.endTime) :
    Period.merge [a, b] g = [⟨a.start, utc b.endTime - utc a.start⟩] := by
  show mergeAux g a [b] = _
  simp only [mergeAux, if_pos hab, if_pos hm, replaceEnd, pymaxDT, if_pos hend]

lemma merge_pair_separate (a b : Period) (g : Int) (hab : utc a.start ≤ utc b.start)
    (hnm : ¬ utc b.start ≤ utc a.endTime + g) :
    Period.merge [a, b] g = [a, b] := by
  show mergeAux g a [b] = _
  simp only [mergeAux, if_pos hab, if_neg hnm]

/-- C3: `LongestSession` merges with `max_gap` equal to 30 minutes minus
one microsecond; for any 15-minute slots at the same offset, a pair
separated by exactly one empty slot still merges while a pair separated
by two empty slots does not; the merged period of maximum duration is
reported (`None` on empty input); and the concrete scenario holds: eight
consecutive 15-minute slots from 2020-01-01T09:00 UTC through 10:45 merge
into a single period spanning 09:00 to 11:00, with duration 2 hours. -/
theorem longestSession_props :
    longestGap = 1800000000 - 1 ∧
      (∀ s z : Int, Period.merge
          [⟨⟨s, z⟩, 900000000⟩, ⟨⟨s + 1800000000, z⟩, 900000000⟩] longestGap =
          [⟨⟨s, z⟩, 2700000000⟩]) ∧
      (∀ s z : Int, Period.merge
          [⟨⟨s, z⟩, 900000000⟩, ⟨⟨s + 2700000000, z⟩, 900000000⟩] longestGap =
          [⟨⟨s, z⟩, 900000000⟩, ⟨⟨s + 2700000000, z⟩, 900000000⟩]) ∧
      longestSessionMake ((List.range 8).map fun k =>
          ⟨⟨63713466000000000 + (k : Int) * 900000000, 0⟩, 900000000⟩) =
        some ⟨⟨63713466000000000, 0⟩, 7200000000⟩ ∧
      longestSessionMake [] = none := by
  refine ⟨by norm_num [longestGap], fun s z => ?_, fun s z => ?_, by decide, rfl⟩
  · rw [merge_pair_merged _ _ _ (by simp only [utc]; omega)
      (by simp only [utc, Period.endTime, dtAdd, longestGap]; omega)
      (by simp only [utc, Period.endTime, dtAdd]; omega)]
    simp only [utc, Period.endTime, dtAdd, List.cons.injEq, Period.mk.injEq,
      DateTime.mk.injEq, and_true, true_and]
    omega
  · exact merge_pair_separate _ _ _ (by simp only [utc]; omega)
      (by simp only [utc, Period.endTime, dtAdd, longestGap]; omega)

lemma pyfold_first_max : ∀ (xs : List Period) (x : Period),
    ∃ l1 l2, x :: xs =
        l1 ++ (xs.foldl (fun m p => if m.duration < p.duration then p else m) x) :: l2 ∧
      (∀ q ∈ l1,
        q.duration < (xs.foldl (fun m p => if m.duration < p.duration then p else m) x).duration) ∧
      (∀ q ∈ x :: xs,
        q.duration ≤ (xs.foldl (fun m p => if m.duration < p.duration then p else m) x).duration)
  | [], x => ⟨[], [], rfl, by simp, by simp⟩
  | y :: ys, x => by
    have hfold : (y :: ys).foldl (fun m p => if m.duration < p.duration then p else m) x
        = ys.foldl (fun m p => if m.duration < p.duration then p else m)
            (if x.duration < y.duration then y else x) := by
      simp [List.foldl_cons]
    by_cases hxy : x.duration < y.duration
    · rw [hfold, if_pos hxy]
      obtain ⟨l1, l2, heq, hlt, hle⟩ := pyfold_first_max ys y
      have hym : y.duration ≤
          (ys.foldl (fun m p => if m.duration < p.duration then p else m) y).duration :=
        hle y (List.mem_cons_self _ _)
      refine ⟨x :: l1, l2, by rw [List.cons_append, ← heq], ?_, ?_⟩
      · intro q hq
        rcases List.mem_cons.mp hq with rfl | hq
        · omega
        · exact hlt q hq
      · intro q hq
        rcases List.mem_cons.mp hq with rfl | hq
        · omega
        · exact hle q hq
    · rw [hfold, if_neg hxy]
      obtain ⟨l1, l2, heq, hlt, hle⟩ := pyfold_first_max ys x
      match l1, heq with
      | [], heq =>
        have hm : ys.foldl (fun m p => if m.duration < p.duration then p else m) x = x := by
          have := congrArg (fun l => l.head?) heq
          simpa using this.symm
        have hys : ∀ q ∈ ys, q.duration ≤
            (ys.foldl (fun m p => if m.duration < p.duration then p else m) x).duration :=
          fun q hq => hle q (List.mem_cons_of_mem _ hq)
        refine ⟨[], y :: ys, by rw [List.nil_append, hm], by simp, ?_⟩
        intro q hq
        rcases List.mem_cons.mp hq with rfl | hq
        · exact hle q (List.mem_cons_self _ _)
        · rcases List.mem_cons.mp hq with rfl | hq'
          · rw [hm]; omega
          · exact hys q hq'
      | z :: l1t, heq =>
        rw [List.cons_append] at heq
        injection heq with hz hys
        subst hz
        have hxlt : x.duration <
            (ys.foldl (fun m p => if m.duration < p.duration then p else m) x).duration :=
          hlt x (List.mem_cons_self _ _)
        refine ⟨x :: y :: l1t, l2, ?_, ?_, ?_⟩
        · rw [List.cons_append, List.cons_append, ← hys]
        · intro q hq
          rcases List.mem_cons.mp hq with rfl | hq
          · exact hxlt
          · rcases List.mem_cons.mp hq with rfl | hq'
            · omega
            · exact hlt q (List.mem_cons_of_mem _ hq')
        · intro q hq
          rcases List.mem_cons.mp hq with rfl | hq
          · exact hle q (List.mem_cons_self _ _)
          · rcases List.mem_cons.mp hq with rfl | hq'
            · omega
            · exact hle q (List.mem_cons_of_mem _ hq')

/-- C10: on empty input `LongestSession.make` returns `None` (rather than
raising), and whenever it returns a session `m`, `m` is the earliest
merged period attaining the maximum duration: the merge output splits as
`l1 ++ m :: l2` where everything in `l1` is strictly shorter than `m` and
nothing in the whole output is longer than `m`. -/
theorem longestSession_first_max (ps : List Period) (m : Period)
    (h : longestSessionMake ps = some m) :
    longestSessionMake [] = none ∧
      ∃ l1 l2, Period.merge ps longestGap = l1 ++ m :: l2 ∧
        (∀ q ∈ l1, q.duration < m.duration) ∧
        (∀ q ∈ Period.merge ps longestGap, q.duration ≤ m.duration) := by
  refine ⟨rfl, ?_⟩
  unfold longestSessionMake pymaxByDuration at h
  match hm : Period.merge ps longestGap, h with
  | x :: xs, h =>
    obtain rfl : xs.foldl (fun m p => if m.duration < p.duration then p else m) x = m := by
      simpa using h
    obtain ⟨l1, l2, heq, hlt, hle⟩ := pyfold_first_max xs x
    exact ⟨l1, l2, heq, hlt, hle⟩

/-- Witness for `longestSession_first_max`: two merged sessions of equal
duration tie for the maximum and the earlier one is returned. -/
theorem longestSession_first_max_witness :
    longestSessionMake [] = none ∧
      ∃ l1 l2, Period.merge
          [⟨⟨0, 0⟩, 900000000⟩, ⟨⟨36000000000, 0⟩, 900000000⟩] longestGap =
          l1 ++ (⟨⟨0, 0⟩, 900000000⟩ : Period) :: l2 ∧
        (∀ q ∈ l1, q.duration < (900000000 : Int)) ∧
        (∀ q ∈ Period.merge
            [⟨⟨0, 0⟩, 900000000⟩, ⟨⟨36000000000, 0⟩, 900000000⟩] longestGap,
          q.duration ≤ (900000000 : Int)) :=
  longestSession_first_max [⟨⟨0, 0⟩, 900000000⟩, ⟨⟨36000000000, 0⟩, 900000000⟩]
    ⟨⟨0, 0⟩, 900000000⟩ (by decide)

/-- C9: the result cap in `Stat.make` is applied only when `limit` is
truthy: a statistic configured with `limit = 0` returns all groups exactly
as with `limit = None`, rather than returning zero groups. -/
theorem statMake_limit_zero {K A : Type} [DecidableEq K] (key : Period → K)
    (fmt_key : K → String) (aggregate : List Period → A) (ps : List Period) :
    statMake key fmt_key (some 0) aggregate ps = statMake key fmt_key none aggregate ps := by
  rfl

lemma dictInsert_of_not_mem {A : Type} (d : List (String × A)) (k : String) (v : A)
    (h : k ∉ d.map Prod.fst) : dictInsert d k v = d ++ [(k, v)] := by
  induction d with
  | nil => rfl
  | cons hd tl ih =>
    simp only [List.map_cons, List.mem_cons, not_or] at h
    simp only [dictInsert]
    rw [if_neg (fun he => h.1 he.symm), ih h.2, List.cons_append]

lemma foldl_dictInsert : ∀ {A : Type} (l acc : List (String × A)),
    ((acc ++ l).map Prod.fst).Nodup →
    l.foldl (fun d kv => dictInsert d kv.1 kv.2) acc = acc ++ l
  | _, [], acc, _ => by simp
  | _, kv :: t, acc, h => by
    have hmap : ((acc ++ kv :: t).map Prod.fst)
        = acc.map Prod.fst ++ kv.1 :: t.map Prod.fst := by simp
    rw [hmap] at h
    have hnm : kv.1 ∉ acc.map Prod.fst := by
      have := (List.nodup_append.mp h).2.2
      intro hmem
      exact this hmem (List.mem_cons_self _ _)
    rw [List.foldl_cons, dictInsert_of_not_mem acc kv.1 kv.2 hnm]
    have h' : (((acc ++ [kv]) ++ t).map Prod.fst).Nodup := by
      rw [List.append_assoc]
      simpa [hmap] using h
    rw [foldl_dictInsert t (acc ++ [kv]) h']
    simp

lemma pyDictOf_eq_self {A : Type} (l : List (String × A)) (h : (l.map Prod.fst).Nodup) :
    pyDictOf l = l := by
  have := foldl_dictInsert l [] (by simpa using h)
  simpa [pyDictOf] using this

/-- C7, counterexample: sorting by `start` orders aware datetimes by their
UTC instant, while the ISO week key reads the wall clock, so a UTC-sorted
sequence with mixed offsets can revisit a week non-adjacently: three
periods sorted ascending by start fall into the week groups W01, W02, W01
of 2020 (three groups, all within the first 8), yet the built mapping has
only two entries — the dict comprehension overwrote the first W01 entry
in place instead of keeping the first 8 groups. -/
theorem weeksMake_overwrite_counterexample :
    ([⟨⟨63713858400000000, -46800000000⟩, 900000000⟩,
      ⟨⟨63713865600000000, -43200000000⟩, 900000000⟩,
      ⟨⟨63713863800000000, -48600000000⟩, 900000000⟩] : List Period).Pairwise
        (fun a b => utc a.start ≤ utc b.start) ∧
      (groupAdjacent (fun p => isocalendarYW p.start)
        [⟨⟨63713858400000000, -46800000000⟩, 900000000⟩,
         ⟨⟨63713865600000000, -43200000000⟩, 900000000⟩,
         ⟨⟨63713863800000000, -48600000000⟩, 900000000⟩]).length = 3 ∧
      (weeksMake
        [⟨⟨63713858400000000, -46800000000⟩, 900000000⟩,
         ⟨⟨63713865600000000, -43200000000⟩, 900000000⟩,
         ⟨⟨63713863800000000, -48600000000⟩, 900000000⟩]).length = 2 := by
  decide

/-- C7, amended: `Weeks.make` groups by ISO calendar `(year, week)` of
each period's start, formats keys as "YYYY-Wnn", and keeps only the first
8 groups in encounter order, provided the kept groups' formatted keys are
distinct — which holds for every single-offset ascending input; when
non-adjacent groups share a key (mixed UTC offsets), the later group's
aggregate overwrites the earlier dict entry in place. -/
theorem weeksMake_first_eight (ps : List Period)
    (hkeys : ((((groupAdjacent (fun p => isocalendarYW p.start) ps).take 8).map
        (fun grp => fmtWeekKey grp.1)).Nodup)) :
    weeksMake ps = specWeeksMake ps := by
  show pyDictOf (((groupAdjacent (fun p => isocalendarYW p.start) ps).take 8).map
      (fun kg => (fmtWeekKey kg.1, count_hours kg.2))) = _
  rw [pyDictOf_eq_self _ (by rw [List.map_map]; exact hkeys)]
  rfl

/-- Witness for `weeksMake_first_eight`: two periods in ISO weeks 2020-W01
and 2020-W02. -/
theorem weeksMake_first_eight_witness :
    weeksMake [⟨⟨63713466000000000, 0⟩, 900000000⟩, ⟨⟨63714099600000000, 0⟩, 900000000⟩] =
      specWeeksMake
        [⟨⟨63713466000000000, 0⟩, 900000000⟩, ⟨⟨63714099600000000, 0⟩, 900000000⟩] :=
  weeksMake_first_eight
    [⟨⟨63713466000000000, 0⟩, 900000000⟩, ⟨⟨63714099600000000, 0⟩, 900000000⟩] (by decide)
